import Mathlib

set_option maxRecDepth 1000000

/-!
# StegTool — verification of the steganographic codec core

Shallow embedding of the StegTool repository (Python) in Lean 4.

Modelling conventions:
* an image grid is its flattened sample sequence, a `List ℕ` (every algorithm
  under scrutiny flattens the numpy array first; samples of a `uint8` grid are
  below 256, which the embedding does not need to assume except where noted);
* a text is its list of Unicode codepoints, a `List ℕ`;
* Python functions that can raise become `Except String` with the raised
  message as the error payload;
* Python's `"{:08b}".format` / `int(_, 2)` pair becomes `format08b` /
  `bitsToNat` below.
-/

namespace StegTool

/-- Equality of `Except` results is decidable componentwise; needed to settle
concrete encode/decode scenarios by evaluation. -/
instance {ε α : Type} [DecidableEq ε] [DecidableEq α] : DecidableEq (Except ε α) := fun a b =>
  match a, b with
  | .error e, .error f =>
      decidable_of_iff (e = f) ⟨by rintro rfl; rfl, fun h => by injection h⟩
  | .error _, .ok _ => .isFalse (fun h => Except.noConfusion h)
  | .ok _, .error _ => .isFalse (fun h => Except.noConfusion h)
  | .ok a, .ok b =>
      decidable_of_iff (a = b) ⟨by rintro rfl; rfl, fun h => by injection h⟩

/-- Codepoints Python's `str.strip()` / `str.isspace()` treat as whitespace. -/
def pyIsSpace (c : ℕ) : Bool :=
  c ∈ [0x09, 0x0A, 0x0B, 0x0C, 0x0D, 0x1C, 0x1D, 0x1E, 0x1F, 0x20,
       0x85, 0xA0, 0x1680,
       0x2000, 0x2001, 0x2002, 0x2003, 0x2004, 0x2005, 0x2006, 0x2007,
       0x2008, 0x2009, 0x200A, 0x2028, 0x2029, 0x202F, 0x205F, 0x3000]

/-- Python `message.strip()`: remove leading and trailing whitespace. -/
def pyStrip (s : List ℕ) : List ℕ :=
  ((s.dropWhile pyIsSpace).reverse.dropWhile pyIsSpace).reverse

/-- The check `not message or len(message.strip()) == 0` used by
`LSBAlgorithm.encode` / `can_fit_message` and `TextHandler.validate_message`. -/
def pyMsgEmpty (msg : List ℕ) : Bool :=
  msg.isEmpty || (pyStrip msg).isEmpty

/-- Big-endian binary digits, driven by a fuel argument so that the
definition is structurally recursive (and hence kernel-computable); the
fuel-exhausted branch is unreachable for `fuel ≥ n`. -/
def natBitsAux : ℕ → ℕ → List ℕ
  | 0, n => [n % 2]
  | fuel + 1, n => if n < 2 then [n] else natBitsAux fuel (n / 2) ++ [n % 2]

/-- Minimal big-endian binary digits of `n` (Python `format(n, 'b')`);
`0` renders as `[0]`. -/
def natBitsMSB (n : ℕ) : List ℕ :=
  natBitsAux n n

/-- Python `format(n, '08b')`: binary digits of `n`, left-padded with zeros to
at least 8 digits (longer than 8 exactly when `n ≥ 256`). -/
def format08b (n : ℕ) : List ℕ :=
  List.replicate (8 - (natBitsMSB n).length) 0 ++ natBitsMSB n

/-- Embeds `''.join(format(ord(char), '08b') for char in s)`. -/
def strBits (s : List ℕ) : List ℕ :=
  (s.map format08b).flatten

/-- Python `int(byte, 2)`: value of big-endian binary digits. -/
def bitsToNat (bits : List ℕ) : ℕ :=
  bits.foldl (fun a b => 2 * a + b) 0

/-- Embeds `(v & 0xFE) | b`: overwrite the least significant bit of sample `v`
with `b` (samples of a `uint8` grid keep their upper 7 bits). -/
def setLSB (v b : ℕ) : ℕ :=
  (v &&& 0xFE) ||| b

/-- The loop `for i, bit in enumerate(binary_message):
`flat_image[i] = (flat_image[i] & 0xFE) | int(bit)` — overwrite the LSBs of
the leading samples with the given bits (callers guarantee the bits fit). -/
def embedCore : List ℕ → List ℕ → List ℕ
  | img, [] => img
  | [], _ :: _ => []
  | v :: img, b :: bits => setLSB v b :: embedCore img bits

/-- Split a bit string into consecutive 8-bit groups, dropping a trailing
group shorter than 8 (`for i in range(0, len(b), 8): ... if len(byte) == 8`). -/
def chunks8 : List ℕ → List (List ℕ)
  | b0 :: b1 :: b2 :: b3 :: b4 :: b5 :: b6 :: b7 :: rest =>
      [b0, b1, b2, b3, b4, b5, b6, b7] :: chunks8 rest
  | _ => []

/-- Decode a bit string to characters, one per full 8-bit group. -/
def bytesOf (bits : List ℕ) : List ℕ :=
  (chunks8 bits).map bitsToNat

/-- The accumulation loop shared by the LSB-style decoders: append decoded
characters one at a time; as soon as the accumulated text ends with `delim`,
return the text with the delimiter stripped (`current_text[:-len(delim)]`);
if the characters run out, return everything accumulated. -/
def scanDelim (delim : List ℕ) : List ℕ → List ℕ → List ℕ
  | acc, [] => acc
  | acc, c :: rest =>
    let acc' := acc ++ [c]
    if delim.isSuffixOf acc' then acc'.take (acc'.length - delim.length)
    else scanDelim delim acc' rest

/-! ## `LSBAlgorithm` (src/core/steganography.py) -/

/-- Embeds `LSBAlgorithm.DELIMITER = "###END_OF_MESSAGE###"` as codepoints. -/
def DELIMITER : List ℕ :=
  [35, 35, 35, 69, 78, 68, 95, 79, 70, 95, 77, 69, 83, 83, 65, 71, 69, 35, 35, 35]

/-- Embeds `LSBAlgorithm.can_fit_message`. -/
def lsbCanFit (img msg : List ℕ) : Bool :=
  if img.length = 0 then false
  else if pyMsgEmpty msg then false
  else decide ((msg.length + DELIMITER.length) * 8 ≤ img.length)

/-- Embeds `LSBAlgorithm.get_capacity`: `max(0, (size - 160) // 8)`.  (Python's
floor division of the possibly negative `size - 160` is clamped by the
`max(0, ·)`, which coincides with truncated ℕ subtraction.) -/
def lsbGetCapacity (size : ℕ) : ℕ :=
  if size = 0 then 0
  else max 0 ((size - DELIMITER.length * 8) / 8)

/-- Embeds `LSBAlgorithm.encode`.  The final branch models the `IndexError` the
Python loop would raise when the bit string is longer than the flat image
(possible only when some codepoint is ≥ 256, so that `format(·, '08b')`
yields more than 8 bits while `can_fit_message` counts only 8 per char). -/
def lsbEncode (img msg : List ℕ) : Except String (List ℕ) :=
  if img.length = 0 then .error "Invalid image: empty or None"
  else if pyMsgEmpty msg then .error "Message cannot be empty"
  else
    let binary := strBits (msg ++ DELIMITER)
    if ¬ lsbCanFit img msg then .error "Message too long for this image"
    else if img.length < binary.length then .error "IndexError"
    else .ok (embedCore img binary)

/-- Embeds `LSBAlgorithm.decode`: take every sample's LSB in flattening order,
group into bytes, and accumulate characters until the accumulated text ends
with the delimiter; with no delimiter, return everything accumulated. -/
def lsbDecode (img : List ℕ) : Except String (List ℕ) :=
  if img.length = 0 then .error "Invalid image: empty or None"
  else .ok (scanDelim DELIMITER [] (bytesOf (img.map (· % 2))))

/-! ## `SimpleDCTAlgorithm` / `SimpleDWTAlgorithm` (src/core/steganography.py)

Both walk the flattened samples with a fixed stride (`range(start, len, stride)`
with `start = 2, stride = 16` for DCT and `start = 1, stride = 32` for DWT),
embedding one bit per visited position. -/

/-- The `"###END###"` delimiter appended by both fixed-stride encoders. -/
def SIMPLE_DELIM : List ℕ := [35, 35, 35, 69, 78, 68, 35, 35, 35]

/-- The 96-bit literal the fixed-stride decoders scan for, copied digit for
digit from the source (the string both decoders compare with
`binary_message.endswith(...)`, annotated there as `"###END###" in binary`). -/
def SIMPLE_PATTERN : List ℕ :=
  [0,0,1,1,1,0,0,1, 0,0,1,1,0,0,1,0, 0,0,1,1,0,0,1,1,
   0,0,1,0,0,1,0,1, 0,1,0,0,1,1,1,0, 0,1,0,0,0,1,0,0,
   0,0,1,1,1,0,0,1, 0,0,1,1,0,0,1,0, 0,0,1,1,0,0,1,1,
   0,0,1,1,1,0,0,1, 0,0,1,1,0,0,1,0, 0,0,1,1,0,0,1,1]

/-- The embedding loop of the fixed-stride encoders: walk the samples with a
running index; at each index `i ≥ start` with `(i - start) % stride = 0`
embed the next bit, breaking (leaving the rest untouched) once the bits are
exhausted. -/
def strideEmbed (start stride : ℕ) : List ℕ → ℕ → List ℕ → List ℕ
  | [], _, _ => []
  | v :: vs, i, bits =>
    if start ≤ i ∧ (i - start) % stride = 0 then
      match bits with
      | [] => v :: vs
      | b :: rest => setLSB v b :: strideEmbed start stride vs (i + 1) rest
    else v :: strideEmbed start stride vs (i + 1) bits

/-- The extraction loop of the fixed-stride decoders: collect LSBs at the
stride positions; after each bit, if the accumulated bit string ends with
`SIMPLE_PATTERN`, strip the last 72 bits and convert the remaining 8-bit
groups to characters; if the samples run out, return `""`. -/
def strideDecode (start stride : ℕ) : List ℕ → ℕ → List ℕ → List ℕ
  | [], _, _ => []
  | v :: vs, i, accBits =>
    if start ≤ i ∧ (i - start) % stride = 0 then
      let acc' := accBits ++ [v % 2]
      if SIMPLE_PATTERN.isSuffixOf acc' then
        bytesOf (acc'.take (acc'.length - 72))
      else strideDecode start stride vs (i + 1) acc'
    else strideDecode start stride vs (i + 1) accBits

/-- Embeds `SimpleDCTAlgorithm.encode` (no validation of any kind in the source:
no empty-image, empty-message or capacity check). -/
def simpleDctEncode (img msg : List ℕ) : List ℕ :=
  strideEmbed 2 16 img 0 (strBits (msg ++ SIMPLE_DELIM))

/-- Embeds `SimpleDCTAlgorithm.decode`. -/
def simpleDctDecode (img : List ℕ) : List ℕ :=
  strideDecode 2 16 img 0 []

/-- Embeds `SimpleDCTAlgorithm.can_fit_message`:
`len(message + "###END###") * 8 <= image.size // 16`. -/
def simpleDctCanFit (img msg : List ℕ) : Bool :=
  decide ((msg.length + SIMPLE_DELIM.length) * 8 ≤ img.length / 16)

/-- Embeds `SimpleDCTAlgorithm.get_capacity`: `max(0, (size // 16 - 72) // 8)`
(Python's floor division of the possibly negative `size // 16 - 72` is
clamped by the `max(0, ·)`, which coincides with truncated ℕ subtraction). -/
def simpleDctGetCapacity (size : ℕ) : ℕ :=
  max 0 ((size / 16 - 72) / 8)

/-- Embeds `SimpleDWTAlgorithm.encode`. -/
def simpleDwtEncode (img msg : List ℕ) : List ℕ :=
  strideEmbed 1 32 img 0 (strBits (msg ++ SIMPLE_DELIM))

/-- Embeds `SimpleDWTAlgorithm.decode`. -/
def simpleDwtDecode (img : List ℕ) : List ℕ :=
  strideDecode 1 32 img 0 []

/-- Embeds `SimpleDWTAlgorithm.can_fit_message`. -/
def simpleDwtCanFit (img msg : List ℕ) : Bool :=
  decide ((msg.length + SIMPLE_DELIM.length) * 8 ≤ img.length / 32)

/-- Embeds `SimpleDWTAlgorithm.get_capacity`: `max(0, (size // 32 - 72) // 8)`. -/
def simpleDwtGetCapacity (size : ℕ) : ℕ :=
  max 0 ((size / 32 - 72) / 8)

/-! ## `DCTAlgorithm` (src/core/advanced_algorithms.py) — capacity model

Only the capacity arithmetic is embedded (the transform itself runs on
floating-point blocks through scipy and is outside the claims); it is a
function of the grid's height, width and channel count alone. -/

/-- Embeds `DCTAlgorithm.DELIMITER = "###DCT_END###"`. -/
def DCT_DELIMITER : List ℕ := [35, 35, 35, 68, 67, 84, 95, 69, 78, 68, 35, 35, 35]

/-- Embeds `DCTAlgorithm._get_embeddable_coefficients`: positions `(i, j)` with
`1 ≤ i, j ≤ 5` and `i + j < 8`, in the source's loop order. -/
def embeddablePositions : List (ℕ × ℕ) :=
  (List.range' 1 5).flatMap fun i =>
    ((List.range' 1 5).filter fun j => i + j < 8).map fun j => (i, j)

/-- Embeds `DCTAlgorithm.get_capacity` for a `height × width × channels` grid:
`max(0, (blocks × coeffs_per_block - 104) // 8)` with
`blocks = (height // 8) × (width // 8) × channels` (Python's floor division
of a possibly negative value is clamped by `max(0, ·)`, which coincides with
truncated ℕ subtraction). -/
def dctGetCapacity (height width channels : ℕ) : ℕ :=
  if height * width * channels = 0 then 0
  else
    max 0 ((height / 8 * (width / 8) * channels * embeddablePositions.length
            - DCT_DELIMITER.length * 8) / 8)

/-! ## `TextHandler` (src/core/text_handler.py)

`_encrypt_aes` / `_decrypt_aes` call into the external `cryptography`
library (PBKDF2-HMAC-SHA256 and AES-256-CBC).  What the repository itself
contributes — and what the claims about error reporting concern — is the
PKCS#7-style padding validation of the decrypted bytes and the wrapping of
every failure into one `ValueError`.  `unpadValidate` takes the padded
plaintext the cipher produced and is a line-by-line translation of the
validation in `_decrypt_aes`. -/

/-- Padding validation of `_decrypt_aes` (lines 94–111): reject an empty
result; read the last byte as the padding length; require it in `[1, 16]`
and not longer than the data; require every one of the last
`padding_length` bytes to equal `padding_length`; return the bytes with the
padding removed. -/
def unpadValidate (padded : List ℕ) : Except String (List ℕ) :=
  match padded.getLast? with
  | none => .error "Invalid decryption result"
  | some pl =>
    if 16 < pl ∨ pl = 0 then .error "Invalid padding - wrong password or corrupted data"
    else if padded.length < pl then .error "Invalid padding length"
    else if (padded.reverse.take pl).all (· = pl) then .ok (padded.take (padded.length - pl))
    else .error "Invalid padding - wrong password"

/-- The `except Exception` wrapper of `_decrypt_aes` (lines 115–116): any
failure inside the body is re-raised as
`"Decryption failed: {str(e)}. Check password or data integrity."`. -/
def decryptWrap (padded : List ℕ) : Except String (List ℕ) :=
  match unpadValidate padded with
  | .ok plaintext => .ok plaintext
  | .error e => .error ("Decryption failed: " ++ e ++ ". Check password or data integrity.")

/-- PKCS#7-style padding applied by `_encrypt_aes` (lines 61–62):
`padding_length = 16 - len(b) % 16`, then that many copies of the value
`padding_length` appended. -/
def padPKCS7 (plaintext : List ℕ) : List ℕ :=
  plaintext ++ List.replicate (16 - plaintext.length % 16) (16 - plaintext.length % 16)

/-- Embeds `TextHandler.validate_message` (with no `max_length` limit): returns
the `(is_valid, error_message)` pair. -/
def validateMessage (msg : List ℕ) : Bool × Option String :=
  if pyMsgEmpty msg then (false, some "Message cannot be empty")
  else if msg.any (fun c => 0xD800 ≤ c ∧ c ≤ 0xDFFF) then
    (false, some "Message contains invalid UTF-8 characters")
  else if 0 ∈ msg then (false, some "Message cannot contain null bytes")
  else (true, none)

/-! ## `ImageSteganalysis.analyze_lsb_distribution` (src/utils/steganalysis.py)

The score combination (lines 88–93).  The floating-point arithmetic is
idealised as exact rational arithmetic; `entropy` (computed with `np.log2`)
and the chi-square `p_value` (computed by scipy, an external library) enter
as parameters, while the zero/one LSB counts and the ratio are computed
from the grid exactly as in the source. -/

/-- Embeds `zeros = np.sum(lsb_bits == 0)`. -/
def lsbZeros (img : List ℕ) : ℕ := (img.filter fun v => v % 2 = 0).length

/-- Embeds `ones = np.sum(lsb_bits == 1)`. -/
def lsbOnes (img : List ℕ) : ℕ := (img.filter fun v => v % 2 = 1).length

/-- Embeds `results['distribution_analysis']['ratio'] = ones / (zeros + 1e-10)`. -/
def ratioCode (zeros ones : ℕ) : ℚ := (ones : ℚ) / ((zeros : ℚ) + 1 / 10000000000)

/-- Embeds `chi_score = 1.0 - p_value if p_value < 0.05 else 0.0`. -/
def chiScore (pValue : ℚ) : ℚ := if pValue < 1 / 20 then 1 - pValue else 0

/-- Embeds `suspicious_score = (entropy_score + ratio_score + chi_score) / 3` with
`entropy_score = abs(entropy - 1.0)` and
`ratio_score = abs(ratio - 0.5) * 2`, where `ratio` is the
`ones / (zeros + 1e-10)` quotient stored in `distribution_analysis`. -/
def suspiciousScore (img : List ℕ) (entropy pValue : ℚ) : ℚ :=
  (|entropy - 1| + |ratioCode (lsbZeros img) (lsbOnes img) - 1 / 2| * 2 + chiScore pValue) / 3

/-- The score the claim describes, for comparison: identical except that the
ratio term uses the fraction of all sample LSBs equal to 1. -/
def suspiciousScoreClaimed (img : List ℕ) (entropy pValue : ℚ) : ℚ :=
  (|entropy - 1| + |(lsbOnes img : ℚ) / (img.length : ℚ) - 1 / 2| * 2 + chiScore pValue) / 3

/-! ## Bit-string lemmas -/

theorem bitsToNat_append_single (l : List ℕ) (b : ℕ) :
    bitsToNat (l ++ [b]) = 2 * bitsToNat l + b := by
  simp [bitsToNat, List.foldl_append]

theorem bitsToNat_replicate_zero (k : ℕ) (l : List ℕ) :
    bitsToNat (List.replicate k 0 ++ l) = bitsToNat l := by
  induction k with
  | zero => rfl
  | succ k ih => simpa [bitsToNat, List.replicate_succ] using ih

theorem bitsToNat_natBitsAux (fuel : ℕ) :
    ∀ n, n ≤ fuel → bitsToNat (natBitsAux fuel n) = n := by
  induction fuel with
  | zero =>
      intro n hn
      interval_cases n
      rfl
  | succ fuel ih =>
      intro n hn
      by_cases h2 : n < 2
      · simp [natBitsAux, h2, bitsToNat]
      · have hdiv : n / 2 ≤ fuel := by omega
        simp [natBitsAux, h2, bitsToNat_append_single, ih (n / 2) hdiv]
        omega

theorem bitsToNat_format08b (n : ℕ) : bitsToNat (format08b n) = n := by
  rw [format08b, bitsToNat_replicate_zero, natBitsMSB, bitsToNat_natBitsAux n n le_rfl]

theorem natBitsAux_length_le (fuel : ℕ) :
    ∀ n k, 1 ≤ k → n < 2 ^ k → (natBitsAux fuel n).length ≤ k := by
  induction fuel with
  | zero => intro n k hk _; simpa [natBitsAux] using hk
  | succ fuel ih =>
      intro n k hk hn
      by_cases h2 : n < 2
      · simpa [natBitsAux, h2] using hk
      · have hk2 : 2 ≤ k := by
          by_contra hlt
          have : k = 1 := by omega
          subst this
          simp [pow_one] at hn
          omega
        have hpow : 2 ^ k = 2 * 2 ^ (k - 1) := by
          rw [← pow_succ']
          congr 1
          omega
        have hdiv : n / 2 < 2 ^ (k - 1) := by
          rw [Nat.div_lt_iff_lt_mul (by omega : 0 < 2)]
          omega
        have := ih (n / 2) (k - 1) (by omega) hdiv
        simp only [natBitsAux, h2, if_false, List.length_append, List.length_cons,
          List.length_nil]
        omega

theorem format08b_length (n : ℕ) (hn : n < 256) : (format08b n).length = 8 := by
  have h8 : (natBitsMSB n).length ≤ 8 :=
    natBitsAux_length_le n n 8 (by omega) (by norm_num; omega)
  simp only [format08b, List.length_append, List.length_replicate]
  omega

theorem natBitsAux_le_one (fuel : ℕ) :
    ∀ n, ∀ b ∈ natBitsAux fuel n, b ≤ 1 := by
  induction fuel with
  | zero => intro n b hb; simp [natBitsAux] at hb; omega
  | succ fuel ih =>
      intro n b hb
      by_cases h2 : n < 2
      · simp [natBitsAux, h2] at hb; omega
      · simp only [natBitsAux, h2, if_false, List.mem_append, List.mem_singleton] at hb
        rcases hb with hb | hb
        · exact ih (n / 2) b hb
        · omega

theorem format08b_le_one (n : ℕ) : ∀ b ∈ format08b n, b ≤ 1 := by
  intro b hb
  simp only [format08b, List.mem_append, List.mem_replicate] at hb
  rcases hb with hb | hb
  · omega
  · exact natBitsAux_le_one n n b hb

theorem strBits_cons (c : ℕ) (s : List ℕ) :
    strBits (c :: s) = format08b c ++ strBits s := by
  simp [strBits]

theorem strBits_append (s t : List ℕ) :
    strBits (s ++ t) = strBits s ++ strBits t := by
  simp [strBits]

theorem strBits_le_one (s : List ℕ) : ∀ b ∈ strBits s, b ≤ 1 := by
  intro b hb
  simp only [strBits, List.mem_flatten, List.mem_map] at hb
  obtain ⟨l, ⟨c, _, rfl⟩, hbl⟩ := hb
  exact format08b_le_one c b hbl

theorem strBits_length (s : List ℕ) (h : ∀ c ∈ s, c < 256) :
    (strBits s).length = 8 * s.length := by
  induction s with
  | nil => rfl
  | cons c s ih =>
      rw [strBits_cons, List.length_append, format08b_length c (h c (by simp)),
        ih (fun d hd => h d (by simp [hd])), List.length_cons]
      ring

theorem chunks8_cons8 (l r : List ℕ) (h : l.length = 8) :
    chunks8 (l ++ r) = l :: chunks8 r := by
  rcases l with _ | ⟨b0, l⟩; · simp at h
  rcases l with _ | ⟨b1, l⟩; · simp at h
  rcases l with _ | ⟨b2, l⟩; · simp at h
  rcases l with _ | ⟨b3, l⟩; · simp at h
  rcases l with _ | ⟨b4, l⟩; · simp at h
  rcases l with _ | ⟨b5, l⟩; · simp at h
  rcases l with _ | ⟨b6, l⟩; · simp at h
  rcases l with _ | ⟨b7, l⟩; · simp at h
  rcases l with _ | ⟨b8, l⟩
  · rfl
  · simp only [List.length_cons] at h
    omega

theorem bytesOf_strBits (s t : List ℕ) (h : ∀ c ∈ s, c < 256) :
    bytesOf (strBits s ++ t) = s ++ bytesOf t := by
  induction s with
  | nil => simp [strBits]
  | cons c s ih =>
      have hc : c < 256 := h c (by simp)
      rw [strBits_cons, List.append_assoc, bytesOf, chunks8_cons8 _ _ (format08b_length c hc),
        List.map_cons, bitsToNat_format08b]
      simpa using ih (fun d hd => h d (by simp [hd]))

/-! ## Embedding-loop lemmas -/

theorem setLSB_mod_two (v b : ℕ) (hb : b ≤ 1) : setLSB v b % 2 = b := by
  have h0 : (v &&& 254).testBit 0 = false := by
    rw [Nat.testBit_land]
    simp [Nat.testBit_zero]
  have h1 := Nat.testBit_lor (v &&& 254) b 0
  rw [h0] at h1
  simp only [Bool.false_or, Nat.testBit_zero] at h1
  rw [decide_eq_decide] at h1
  have : setLSB v b % 2 = (v &&& 254 ||| b) % 2 := rfl
  rw [this]
  interval_cases b <;> omega

theorem embedCore_length (img bits : List ℕ) (h : bits.length ≤ img.length) :
    (embedCore img bits).length = img.length := by
  induction bits generalizing img with
  | nil => cases img <;> rfl
  | cons b bits ih =>
      cases img with
      | nil => simp at h
      | cons v img =>
          simp only [embedCore, List.length_cons]
          rw [ih img (by simpa using h)]

theorem embedCore_map_mod (img bits : List ℕ) (hlen : bits.length ≤ img.length)
    (hb : ∀ b ∈ bits, b ≤ 1) :
    (embedCore img bits).map (· % 2) = bits ++ (img.drop bits.length).map (· % 2) := by
  induction bits generalizing img with
  | nil => cases img <;> rfl
  | cons b bits ih =>
      cases img with
      | nil => simp at hlen
      | cons v img =>
          simp only [embedCore, List.map_cons, List.length_cons, List.drop_succ_cons,
            List.cons_append]
          rw [setLSB_mod_two v b (hb b (by simp)),
            ih img (by simpa using hlen) (fun x hx => hb x (by simp [hx]))]

/-! ## Delimiter-scan lemmas -/

theorem scanDelim_cons (delim acc : List ℕ) (c : ℕ) (rest : List ℕ) :
    scanDelim delim acc (c :: rest)
      = if delim.isSuffixOf (acc ++ [c])
        then (acc ++ [c]).take ((acc ++ [c]).length - delim.length)
        else scanDelim delim (acc ++ [c]) rest := rfl

theorem take_append_singleton (acc : List ℕ) (c : ℕ) (rest : List ℕ) :
    (acc ++ (c :: rest)).take (acc.length + 1) = acc ++ [c] := by
  have : acc ++ (c :: rest) = (acc ++ [c]) ++ rest := by simp
  rw [this, List.take_append_of_le_length (by simp)]
  simp

theorem scanDelim_finds (delim junk : List ℕ) :
    ∀ (todo acc : List ℕ), todo ≠ [] →
      (∀ k, k < acc.length + todo.length → ¬ delim <:+ (acc ++ todo).take k) →
      delim <:+ (acc ++ todo) →
      scanDelim delim acc (todo ++ junk)
        = (acc ++ todo).take (acc.length + todo.length - delim.length) := by
  intro todo
  induction todo with
  | nil => intro acc h; exact absurd rfl h
  | cons c todo ih =>
      intro acc _ hno hyes
      cases todo with
      | nil =>
          have hsuf : delim.isSuffixOf (acc ++ [c]) = true :=
            List.isSuffixOf_iff_suffix.mpr (by simpa using hyes)
          rw [List.cons_append, scanDelim_cons, if_pos hsuf]
          simp [List.length_append]
      | cons d todo' =>
          have hnosuf : ¬ delim <:+ (acc ++ [c]) := by
            have hk : acc.length + 1 < acc.length + (c :: d :: todo').length := by
              simp
            have := hno (acc.length + 1) hk
            rwa [take_append_singleton] at this
          have hsuf : delim.isSuffixOf (acc ++ [c]) = false := by
            rw [← Bool.not_eq_true, List.isSuffixOf_iff_suffix]
            exact hnosuf
          rw [List.cons_append, scanDelim_cons, if_neg (by simp [hsuf])]
          have hassoc : (acc ++ [c]) ++ (d :: todo') = acc ++ (c :: d :: todo') := by
            simp
          have hrec := ih (acc ++ [c]) (by simp)
            (by
              intro k hk
              rw [hassoc]
              refine hno k ?_
              simp only [List.length_append, List.length_cons, List.length_singleton, List.length_nil] at hk ⊢
              omega)
            (by rw [hassoc]; exact hyes)
          rw [hrec, hassoc]
          congr 1
          simp only [List.length_append, List.length_cons, List.length_singleton, List.length_nil]
          omega

theorem scanDelim_none (delim : List ℕ) :
    ∀ (todo acc : List ℕ),
      (∀ k, k ≤ acc.length + todo.length → ¬ delim <:+ (acc ++ todo).take k) →
      scanDelim delim acc todo = acc ++ todo := by
  intro todo
  induction todo with
  | nil => intro acc _; simp [scanDelim]
  | cons c todo ih =>
      intro acc hno
      have hnosuf : ¬ delim <:+ (acc ++ [c]) := by
        have hk : acc.length + 1 ≤ acc.length + (c :: todo).length := by simp
        have := hno (acc.length + 1) hk
        rwa [take_append_singleton] at this
      have hsuf : delim.isSuffixOf (acc ++ [c]) = false := by
        rw [← Bool.not_eq_true, List.isSuffixOf_iff_suffix]
        exact hnosuf
      rw [scanDelim_cons, if_neg (by simp [hsuf])]
      have hassoc : (acc ++ [c]) ++ todo = acc ++ (c :: todo) := by simp
      have hrec := ih (acc ++ [c])
        (by
          intro k hk
          rw [hassoc]
          refine hno k ?_
          simp only [List.length_append, List.length_cons, List.length_singleton, List.length_nil] at hk ⊢
          omega)
      rw [hrec, hassoc]

/-! ## Plain-LSB round-trip -/

theorem delimiter_chars_lt (c : ℕ) (hc : c ∈ DELIMITER) : c < 256 := by
  fin_cases hc <;> norm_num

/-- General plain-LSB round-trip: for a message of codepoints below 256 that
passes the emptiness check, fits together with the delimiter into the grid,
and is such that no proper prefix of `message + delimiter` already ends with
the delimiter, `encode` succeeds and `decode` returns exactly the message. -/
theorem lsb_roundtrip (img msg : List ℕ)
    (hchar : ∀ c ∈ msg, c < 256)
    (hmsg : pyMsgEmpty msg = false)
    (hfit : (msg.length + DELIMITER.length) * 8 ≤ img.length)
    (hnodup : ∀ k, k < msg.length + DELIMITER.length →
      ¬ DELIMITER <:+ (msg ++ DELIMITER).take k) :
    lsbEncode img msg = Except.ok (embedCore img (strBits (msg ++ DELIMITER))) ∧
    lsbDecode (embedCore img (strBits (msg ++ DELIMITER))) = Except.ok msg := by
  have hdlen : DELIMITER.length = 20 := by decide
  have hfull : ∀ c ∈ msg ++ DELIMITER, c < 256 := by
    intro c hc
    rcases List.mem_append.mp hc with h | h
    · exact hchar c h
    · exact delimiter_chars_lt c h
  have hflen : (msg ++ DELIMITER).length = msg.length + DELIMITER.length := by
    simp
  have hblen : (strBits (msg ++ DELIMITER)).length = 8 * (msg.length + DELIMITER.length) := by
    rw [strBits_length _ hfull, hflen]
  have himg0 : ¬ img.length = 0 := by omega
  have hble : (strBits (msg ++ DELIMITER)).length ≤ img.length := by omega
  have hcf : lsbCanFit img msg = true := by
    rw [lsbCanFit, if_neg himg0]
    simp [hmsg, hfit]
  constructor
  · rw [lsbEncode, if_neg himg0]
    simp only [hmsg, Bool.false_eq_true, if_false, hcf, not_true,
      if_neg (by omega : ¬ img.length < (strBits (msg ++ DELIMITER)).length)]
  · have hout0 : ¬ (embedCore img (strBits (msg ++ DELIMITER))).length = 0 := by
      rw [embedCore_length _ _ hble]
      exact himg0
    rw [lsbDecode, if_neg hout0]
    rw [embedCore_map_mod _ _ hble (strBits_le_one _)]
    rw [bytesOf_strBits _ _ hfull]
    have hfind := scanDelim_finds DELIMITER
      (bytesOf ((img.drop (strBits (msg ++ DELIMITER)).length).map (· % 2)))
      (msg ++ DELIMITER) []
      (by
        intro h
        have hl : (msg ++ DELIMITER).length = 0 := by rw [h]; rfl
        rw [hflen, hdlen] at hl
        omega)
      (by
        intro k hk
        simp only [List.nil_append, List.length_nil, Nat.zero_add] at hk ⊢
        exact hnodup k (by omega))
      (by simp only [List.nil_append]; exact List.suffix_append msg DELIMITER)
    rw [hfind]
    simp only [List.nil_append, List.length_nil, Nat.zero_add, hflen]
    have htake : msg.length + DELIMITER.length - DELIMITER.length = msg.length := by omega
    rw [htake, List.take_left]

/-- When the byte stream extracted from the grid never reaches a point where
it ends with the delimiter, `LSBAlgorithm.decode` returns all accumulated
characters (the source comment: `If no delimiter found, return what we have`). -/
theorem lsbDecode_no_delimiter (img : List ℕ) (h0 : ¬ img.length = 0)
    (hno : ∀ k, k ≤ (bytesOf (img.map (· % 2))).length →
      ¬ DELIMITER <:+ (bytesOf (img.map (· % 2))).take k) :
    lsbDecode img = Except.ok (bytesOf (img.map (· % 2))) := by
  rw [lsbDecode, if_neg h0]
  have := scanDelim_none DELIMITER (bytesOf (img.map (· % 2))) []
    (by
      intro k hk
      simp only [List.nil_append, List.length_nil, Nat.zero_add] at hk ⊢
      exact hno k hk)
  rw [this]
  simp

/-! ## Capacity, validation and stride lemmas -/

/-- The fixed-stride embedding loop never changes the number of samples:
the encoders always return a full-size grid (they can neither fail nor
shrink the image, whatever the message size). -/
theorem strideEmbed_length (start stride : ℕ) :
    ∀ (img : List ℕ) (i : ℕ) (bits : List ℕ),
      (strideEmbed start stride img i bits).length = img.length := by
  intro img
  induction img with
  | nil => intro i bits; rfl
  | cons v vs ih =>
      intro i bits
      by_cases hpos : start ≤ i ∧ (i - start) % stride = 0
      · cases bits with
        | nil => simp [strideEmbed, hpos]
        | cons b rest => simp [strideEmbed, hpos, ih]
      · simp [strideEmbed, hpos, ih]

/-- A message of whitespace codepoints only fails the emptiness check
(`len(message.strip()) == 0`). -/
theorem pyMsgEmpty_of_all_space (msg : List ℕ) (h : msg.all pyIsSpace = true) :
    pyMsgEmpty msg = true := by
  have hdrop : msg.dropWhile pyIsSpace = [] :=
    List.dropWhile_eq_nil_iff.mpr (fun x hx => (List.all_eq_true.mp h) x hx)
  have hstrip : pyStrip msg = [] := by
    rw [pyStrip, hdrop]
    rfl
  rw [pyMsgEmpty, hstrip]
  simp

/-- The embedded `LSBAlgorithm.encode` on a valid image and non-blank message that does
not fit raises exactly the capacity error — whose text does not contain the
numeric capacity. -/
theorem lsbEncode_too_long (img msg : List ℕ) (h0 : ¬ img.length = 0)
    (hm : pyMsgEmpty msg = false)
    (hover : img.length < (msg.length + DELIMITER.length) * 8) :
    lsbEncode img msg = Except.error "Message too long for this image" := by
  have hcf : lsbCanFit img msg = false := by
    rw [lsbCanFit, if_neg h0]
    simp only [hm, Bool.false_eq_true, if_false, decide_eq_false_iff_not]
    omega
  rw [lsbEncode, if_neg h0]
  simp [hm, hcf]

/-- For a non-empty grid and a non-blank message, `can_fit_message` is
exactly the bit-count comparison against the sample count. -/
theorem lsbCanFit_iff (img msg : List ℕ) (h0 : ¬ img.length = 0)
    (hm : pyMsgEmpty msg = false) :
    lsbCanFit img msg = true ↔ (msg.length + DELIMITER.length) * 8 ≤ img.length := by
  rw [lsbCanFit, if_neg h0]
  simp [hm]

/-- The embedded `LSBAlgorithm.get_capacity` is non-decreasing in the sample count. -/
theorem lsbGetCapacity_mono (n m : ℕ) (h : n ≤ m) :
    lsbGetCapacity n ≤ lsbGetCapacity m := by
  rw [lsbGetCapacity, lsbGetCapacity]
  by_cases hn : n = 0
  · simp [hn]
  · rw [if_neg hn, if_neg (by omega)]
    have := Nat.div_le_div_right (c := 8) (Nat.sub_le_sub_right h (DELIMITER.length * 8))
    omega

/-- The embedded `SimpleDCTAlgorithm.get_capacity` is non-decreasing in the sample count. -/
theorem simpleDctGetCapacity_mono (n m : ℕ) (h : n ≤ m) :
    simpleDctGetCapacity n ≤ simpleDctGetCapacity m := by
  rw [simpleDctGetCapacity, simpleDctGetCapacity]
  have h16 := Nat.div_le_div_right (c := 16) h
  have := Nat.div_le_div_right (c := 8) (Nat.sub_le_sub_right h16 72)
  omega

/-- The embedded `SimpleDWTAlgorithm.get_capacity` is non-decreasing in the sample count. -/
theorem simpleDwtGetCapacity_mono (n m : ℕ) (h : n ≤ m) :
    simpleDwtGetCapacity n ≤ simpleDwtGetCapacity m := by
  rw [simpleDwtGetCapacity, simpleDwtGetCapacity]
  have h32 := Nat.div_le_div_right (c := 32) h
  have := Nat.div_le_div_right (c := 8) (Nat.sub_le_sub_right h32 72)
  omega

/-- The embedded `DCTAlgorithm.get_capacity` is non-decreasing in every dimension
(separately in height, width and channel count). -/
theorem dctGetCapacity_mono (h w c h' w' c' : ℕ)
    (hh : h ≤ h') (hw : w ≤ w') (hc : c ≤ c') :
    dctGetCapacity h w c ≤ dctGetCapacity h' w' c' := by
  rw [dctGetCapacity, dctGetCapacity]
  by_cases hz : h * w * c = 0
  · simp [hz]
  · obtain ⟨⟨hh0, hw0⟩, hc0⟩ : (¬ h = 0 ∧ ¬ w = 0) ∧ ¬ c = 0 := by
      simpa [Nat.mul_eq_zero, not_or] using hz
    have hz' : ¬ h' * w' * c' = 0 := by
      simp only [Nat.mul_eq_zero, not_or]
      exact ⟨⟨by omega, by omega⟩, by omega⟩
    rw [if_neg hz, if_neg hz']
    have hblocks : h / 8 * (w / 8) * c * embeddablePositions.length
        ≤ h' / 8 * (w' / 8) * c' * embeddablePositions.length := by
      have := Nat.div_le_div_right (c := 8) hh
      have := Nat.div_le_div_right (c := 8) hw
      exact Nat.mul_le_mul (Nat.mul_le_mul (Nat.mul_le_mul (by omega) (by omega)) hc) le_rfl
    have := Nat.div_le_div_right (c := 8)
      (Nat.sub_le_sub_right hblocks (DCT_DELIMITER.length * 8))
    omega

/-- Every failure of the decryption post-processing is wrapped into the
single frame `Decryption failed: <reason>. Check password or data
integrity.`, with the embedded reason equal to the message of the specific
validation error that fired. -/
theorem decryptWrap_error_shape (padded : List ℕ) (e : String)
    (h : decryptWrap padded = Except.error e) :
    ∃ m, e = "Decryption failed: " ++ m ++ ". Check password or data integrity." ∧
      unpadValidate padded = Except.error m := by
  rw [decryptWrap] at h
  cases hu : unpadValidate padded with
  | ok v => rw [hu] at h; exact absurd h (by simp)
  | error m =>
      rw [hu] at h
      injection h with h
      exact ⟨m, h.symm, rfl⟩

/-- The padding applied by `_encrypt_aes` is accepted and removed intact by
the validation in `_decrypt_aes`: the repository's own padding layer
round-trips (the cipher between the two is the external AES library). -/
theorem unpadValidate_padPKCS7 (pt : List ℕ) :
    unpadValidate (padPKCS7 pt) = Except.ok pt := by
  have hk1 : 1 ≤ 16 - pt.length % 16 := by omega
  have hk16 : 16 - pt.length % 16 ≤ 16 := by omega
  have hrep0 : List.replicate (16 - pt.length % 16) (16 - pt.length % 16) ≠ [] := by
    simp only [ne_eq, List.replicate_eq_nil_iff]
    omega
  have hlast : (padPKCS7 pt).getLast? = some (16 - pt.length % 16) := by
    rw [padPKCS7, List.getLast?_append_of_ne_nil _ hrep0]
    rw [List.getLast?_eq_getLast _ hrep0, List.getLast_replicate]
  have hlen : (padPKCS7 pt).length = pt.length + (16 - pt.length % 16) := by
    simp [padPKCS7]
  simp only [unpadValidate, hlast]
  rw [if_neg (by omega), if_neg (by omega)]
  have hrev : (padPKCS7 pt).reverse.take (16 - pt.length % 16)
      = List.replicate (16 - pt.length % 16) (16 - pt.length % 16) := by
    rw [padPKCS7, List.reverse_append, List.reverse_replicate]
    exact List.take_left' (by simp)
  rw [if_pos (by
    rw [hrev]
    simp only [List.all_eq_true, List.mem_replicate]
    intro x hx
    simp [hx.2])]
  rw [hlen, Nat.add_sub_cancel, padPKCS7, List.take_left' rfl]

/-! ## The claims -/

/-- C1 counterexample: the message `"###END_OF_MESSAGE###X"` is non-empty,
contains no NUL byte, and the 328-sample grid satisfies the claim's
`8×(len+20)` bound, yet decoding the encoded grid yields `""`, not the
message (the decoder stops at the first point where the accumulated text
ends with the delimiter, which here happens before the message's own end). -/
theorem lsb_roundtrip_delimiter_cex :
    (0 : ℕ) ∉ DELIMITER ++ [88] ∧
    DELIMITER ++ [88] ≠ [] ∧
    ((DELIMITER ++ [88]).length + DELIMITER.length) * 8 ≤ (List.replicate 328 0).length ∧
    (lsbEncode (List.replicate 328 0) (DELIMITER ++ [88])).toOption.bind
      (fun o => (lsbDecode o).toOption) = some [] ∧
    ([] : List ℕ) ≠ DELIMITER ++ [88] := by decide

/-- C1 (amended): plain-LSB round-trip holds for every grid with at least
`8×(len(message)+20)` samples and every message whose codepoints are below
256, which contains at least one non-whitespace character, and for which no
proper prefix of `message + delimiter` already ends with the delimiter. -/
theorem lsb_roundtrip_valid (img msg : List ℕ)
    (hchar : ∀ c ∈ msg, c < 256)
    (hmsg : pyMsgEmpty msg = false)
    (hfit : (msg.length + DELIMITER.length) * 8 ≤ img.length)
    (hnodup : ∀ k, k < msg.length + DELIMITER.length →
      ¬ DELIMITER <:+ (msg ++ DELIMITER).take k) :
    (lsbEncode img msg).bind lsbDecode = Except.ok msg := by
  obtain ⟨he, hd⟩ := lsb_roundtrip img msg hchar hmsg hfit hnodup
  rw [he]
  simpa [Except.bind] using hd

/-- C1 witness: the round-trip theorem applied to the message `"hi"` on a
328-sample zero grid. -/
theorem lsb_roundtrip_valid_witness :
    (lsbEncode (List.replicate 328 0) [104, 105]).bind lsbDecode
      = Except.ok [104, 105] :=
  lsb_roundtrip_valid (List.replicate 328 0) [104, 105]
    (by decide) (by decide) (by decide) (by decide)

/-- C2: the fixed-stride decoders scan for a 96-bit pattern that is NOT the
bit pattern of the 9-character delimiter `"###END###"` the encoders append
(the pattern decodes to `"923%ND923923"`), so even on grids with enough
stride positions (`can_fit` true) the round-trip returns `""` instead of
the message. -/
theorem stride_delimiter_bug :
    SIMPLE_PATTERN ≠ strBits SIMPLE_DELIM ∧
    simpleDctCanFit (List.replicate 1280 0) [65] = true ∧
    simpleDctDecode (simpleDctEncode (List.replicate 1280 0) [65]) = [] ∧
    simpleDwtCanFit (List.replicate 2560 0) [65] = true ∧
    simpleDwtDecode (simpleDwtEncode (List.replicate 2560 0) [65]) = [] ∧
    ([] : List ℕ) ≠ [65] := by decide

/-- C4 counterexample: a 32-sample grid offers only 2 stride positions, so
`"A"` (80 bits with delimiter) does not fit (`can_fit` is false) — yet
`SimpleDCTAlgorithm.encode` does not fail: it silently truncates the bit
stream to 2 bits and returns a grid it did modify (sample 18 changed). -/
theorem simpleDct_truncates_cex :
    simpleDctCanFit (List.replicate 32 0) [65] = false ∧
    simpleDctEncode (List.replicate 32 0) [65]
      = List.replicate 18 0 ++ 1 :: List.replicate 13 0 ∧
    List.replicate 18 0 ++ 1 :: List.replicate 13 0 ≠ List.replicate (32 : ℕ) (0 : ℕ) := by
  decide

/-- C4 (amended): plain-LSB `encode` checks capacity before touching any
sample and fails with the fixed text `Message too long for this image`
(which does not report the available capacity); the fixed-stride
`SimpleDCT`/`SimpleDWT` encoders never fail at all — they always return a
grid of the same size, silently truncating an oversized message. -/
theorem capacity_error_behaviour :
    (∀ img msg : List ℕ, ¬ img.length = 0 → pyMsgEmpty msg = false →
      img.length < (msg.length + DELIMITER.length) * 8 →
      lsbEncode img msg = Except.error "Message too long for this image") ∧
    (∀ img msg : List ℕ, (simpleDctEncode img msg).length = img.length) ∧
    (∀ img msg : List ℕ, (simpleDwtEncode img msg).length = img.length) :=
  ⟨lsbEncode_too_long,
   fun img msg => strideEmbed_length 2 16 img 0 (strBits (msg ++ SIMPLE_DELIM)),
   fun img msg => strideEmbed_length 1 32 img 0 (strBits (msg ++ SIMPLE_DELIM))⟩

/-- C4 witness: the capacity error on an 8-sample grid, and the
size-preserving (hence non-failing) truncating DCT encode on 32 samples. -/
theorem capacity_error_behaviour_witness :
    lsbEncode (List.replicate 8 0) [65] = Except.error "Message too long for this image" ∧
    (simpleDctEncode (List.replicate 32 0) [65]).length = 32 := by
  refine ⟨capacity_error_behaviour.1 _ _ (by decide) (by decide) (by decide), ?_⟩
  rw [capacity_error_behaviour.2.1]
  decide

/-- C5 counterexample: an 8-sample zero grid decodes to the single NUL
character — `decode` succeeds and returns the accumulated partial text
although the LSB stream never contains the end marker; it does not fail
with a "no hidden message" error. -/
theorem lsbDecode_partial_cex :
    ¬ DELIMITER <:+: bytesOf ((List.replicate 8 0).map (· % 2)) ∧
    lsbDecode (List.replicate 8 0) = Except.ok [0] := by decide

/-- C5 (amended): when the accumulated text never ends with the delimiter,
plain-LSB `decode` returns all accumulated characters (one per full byte of
the LSB stream) instead of failing — "If no delimiter found, return what we
have" in the source. -/
theorem lsbDecode_no_marker (img : List ℕ) (h0 : ¬ img.length = 0)
    (hno : ∀ k, k ≤ (bytesOf (img.map (· % 2))).length →
      ¬ DELIMITER <:+ (bytesOf (img.map (· % 2))).take k) :
    lsbDecode img = Except.ok (bytesOf (img.map (· % 2))) :=
  lsbDecode_no_delimiter img h0 hno

/-- C5 witness: the no-marker decode on a 16-sample all-ones grid returns
the two accumulated `ÿ` characters. -/
theorem lsbDecode_no_marker_witness :
    lsbDecode (List.replicate 16 1)
      = Except.ok (bytesOf ((List.replicate 16 1).map (· % 2))) :=
  lsbDecode_no_marker (List.replicate 16 1) (by decide) (by decide)

/-- C6 counterexample: three decrypted-padding failures produce three
pairwise different error texts — the message does reveal which validation
check failed (padding value out of range vs. padding longer than data vs.
padding byte mismatch). -/
theorem decrypt_error_text_cex :
    decryptWrap [17] = Except.error
      "Decryption failed: Invalid padding - wrong password or corrupted data. Check password or data integrity." ∧
    decryptWrap [2, 3] = Except.error
      "Decryption failed: Invalid padding length. Check password or data integrity." ∧
    decryptWrap [3, 2] = Except.error
      "Decryption failed: Invalid padding - wrong password. Check password or data integrity." ∧
    ("Decryption failed: Invalid padding - wrong password or corrupted data. Check password or data integrity."
      : String) ≠ "Decryption failed: Invalid padding length. Check password or data integrity." ∧
    ("Decryption failed: Invalid padding - wrong password or corrupted data. Check password or data integrity."
      : String) ≠ "Decryption failed: Invalid padding - wrong password. Check password or data integrity." ∧
    ("Decryption failed: Invalid padding length. Check password or data integrity."
      : String) ≠ "Decryption failed: Invalid padding - wrong password. Check password or data integrity." := by
  decide

/-- C6 (amended): every decryption failure is re-raised inside the single
uniform frame `Decryption failed: <reason>. Check password or data
integrity.`, but the embedded reason is the message of the specific
validation error that fired, so the text does distinguish the checks. -/
theorem decrypt_error_uniform_frame (padded : List ℕ) (e : String)
    (h : decryptWrap padded = Except.error e) :
    ∃ m, e = "Decryption failed: " ++ m ++ ". Check password or data integrity." ∧
      unpadValidate padded = Except.error m :=
  decryptWrap_error_shape padded e h

/-- C6 witness: the frame theorem applied to the one-byte input `[17]`. -/
theorem decrypt_error_uniform_frame_witness :
    decryptWrap [17] = Except.error
      "Decryption failed: Invalid padding - wrong password or corrupted data. Check password or data integrity." ∧
    ∃ m, ("Decryption failed: Invalid padding - wrong password or corrupted data. Check password or data integrity."
        : String) = "Decryption failed: " ++ m ++ ". Check password or data integrity." ∧
      unpadValidate [17] = Except.error m :=
  ⟨by decide, decrypt_error_uniform_frame [17] _ (by decide)⟩

/-- C7: on the two-sample grid `[0, 1]` (one zero LSB, one one LSB) with
entropy 1 and p-value 1, the source's `suspicious_score` is
`3333333333/10000000001 ≈ 1/3` — because `ratio` is `ones/(zeros + 1e-10)`,
which is ≈ 1 on this balanced grid — while the claimed formula (with
`ones_ratio` the fraction of LSBs equal to 1, here `1/2`) gives 0. -/
theorem suspicious_score_ratio_divergence :
    suspiciousScore [0, 1] 1 1 = 3333333333 / 10000000001 ∧
    suspiciousScoreClaimed [0, 1] 1 1 = 0 ∧
    suspiciousScore [0, 1] 1 1 ≠ suspiciousScoreClaimed [0, 1] 1 1 := by
  refine ⟨?_, ?_, ?_⟩
  · norm_num [suspiciousScore, ratioCode, chiScore, lsbZeros, lsbOnes]
    rw [abs_of_nonneg (by norm_num : (0 : ℚ) ≤ 9999999999 / 20000000002)]
    norm_num
  · norm_num [suspiciousScoreClaimed, chiScore, lsbZeros, lsbOnes]
  · norm_num [suspiciousScore, suspiciousScoreClaimed, ratioCode, chiScore,
      lsbZeros, lsbOnes]

/-- C8 counterexample: the block-DCT capacity is not monotone in the total
sample count — a 24×24×1 grid (576 samples) holds 8 characters while a
7×1000×1 grid (7000 samples, but no complete 8×8 block rows) holds 0; and
plain-LSB `can_fit` is false for the one-space message on a 1000-sample
grid although its 168 bits are at most the sample count. -/
theorem capacity_monotonicity_cex :
    dctGetCapacity 24 24 1 = 8 ∧
    dctGetCapacity 7 1000 1 = 0 ∧
    24 * 24 * 1 < 7 * 1000 * 1 ∧
    lsbCanFit (List.replicate 1000 0) [32] = false ∧
    (([32] : List ℕ).length + DELIMITER.length) * 8 ≤ (List.replicate 1000 0).length := by
  decide

/-- C8 (amended): the capacities of plain LSB and of the two fixed-stride
variants are non-decreasing in the total sample count, and the block-DCT
capacity is non-decreasing in each of height, width and channels
(though not in the sample count); for a non-empty grid and a message with a
non-whitespace character, plain-LSB `can_fit` holds exactly when the
message-plus-delimiter bit count is at most the sample count. -/
theorem capacity_monotonicity_amended :
    (∀ n m : ℕ, n ≤ m → lsbGetCapacity n ≤ lsbGetCapacity m) ∧
    (∀ img msg : List ℕ, ¬ img.length = 0 → pyMsgEmpty msg = false →
      (lsbCanFit img msg = true ↔ (msg.length + DELIMITER.length) * 8 ≤ img.length)) ∧
    (∀ n m : ℕ, n ≤ m → simpleDctGetCapacity n ≤ simpleDctGetCapacity m) ∧
    (∀ n m : ℕ, n ≤ m → simpleDwtGetCapacity n ≤ simpleDwtGetCapacity m) ∧
    (∀ h w c h' w' c' : ℕ, h ≤ h' → w ≤ w' → c ≤ c' →
      dctGetCapacity h w c ≤ dctGetCapacity h' w' c') :=
  ⟨lsbGetCapacity_mono, lsbCanFit_iff, simpleDctGetCapacity_mono,
   simpleDwtGetCapacity_mono, dctGetCapacity_mono⟩

/-- C8 witness: the monotonicity and fit-equivalence theorem applied at
concrete sizes. -/
theorem capacity_monotonicity_amended_witness :
    lsbGetCapacity 160 ≤ lsbGetCapacity 30000 ∧
    (lsbCanFit (List.replicate 328 0) [104, 105] = true ↔
      (([104, 105] : List ℕ).length + DELIMITER.length) * 8
        ≤ (List.replicate 328 0).length) ∧
    dctGetCapacity 8 8 1 ≤ dctGetCapacity 16 8 3 :=
  ⟨capacity_monotonicity_amended.1 160 30000 (by decide),
   capacity_monotonicity_amended.2.1 _ _ (by decide) (by decide),
   capacity_monotonicity_amended.2.2.2.2 8 8 1 16 8 3 (by decide) (by decide) (by decide)⟩

/-- C9: a 30,000-sample grid (100×100 RGB) has plain-LSB capacity exactly
`(30000 - 160) // 8 = 3730` characters, and the message `"hi"` encodes
successfully and decodes back to `"hi"`. -/
theorem concrete_hi_scenario :
    lsbGetCapacity 30000 = 3730 ∧
    ∃ out, lsbEncode (List.replicate 30000 0) [104, 105] = Except.ok out ∧
      lsbDecode out = Except.ok [104, 105] := by
  obtain ⟨he, hd⟩ := lsb_roundtrip (List.replicate 30000 0) [104, 105]
    (by decide) (by decide)
    (by simp only [List.length_replicate]; decide)
    (by decide)
  exact ⟨by decide, _, he, hd⟩

/-- C10: a non-empty all-whitespace message is rejected everywhere: encode
raises `Message cannot be empty`, `can_fit_message` is false, and
`validate_message` reports the same error. -/
theorem whitespace_message_rejected (img msg : List ℕ)
    (_hne : msg ≠ [])
    (hws : msg.all pyIsSpace = true)
    (himg : ¬ img.length = 0) :
    lsbEncode img msg = Except.error "Message cannot be empty" ∧
    lsbCanFit img msg = false ∧
    validateMessage msg = (false, some "Message cannot be empty") := by
  have he := pyMsgEmpty_of_all_space msg hws
  refine ⟨?_, ?_, ?_⟩
  · rw [lsbEncode, if_neg himg, if_pos he]
  · rw [lsbCanFit, if_neg himg, if_pos he]
  · rw [validateMessage, if_pos he]

/-- C10 witness: the single-space message on a two-sample grid. -/
theorem whitespace_message_rejected_witness :
    lsbEncode [0, 0] [32] = Except.error "Message cannot be empty" ∧
    lsbCanFit [0, 0] [32] = false ∧
    validateMessage [32] = (false, some "Message cannot be empty") :=
  whitespace_message_rejected [0, 0] [32] (by decide) (by decide) (by decide)

end StegTool
